import Mathlib

/-!
Shallow embedding of the Timeline & Render Pipeline of the fake-text-story
builder (source: src/src/App.tsx), covering the reveal scheduler, the
visible-count function, the dual-mode clock, the export schedule builder,
the frame capture loop, and the export orchestrator, together with proofs
about them.

Numbers: JavaScript numbers are embedded as rationals (ℚ) where fractional
values occur (per-message delays in seconds, timeline times) and as ℤ/ℕ
where the source always holds integers (millisecond schedule times, frame
indices).  `Math.round` is embedded as `jround` (round half toward +∞,
which is JavaScript's rounding mode).
-/

namespace FakeText

/-- JavaScript `Math.round`: round half up (toward +∞). -/
def jround (x : ℚ) : ℤ := ⌊x + 1 / 2⌋

inductive Speaker where
  | SENDER
  | RECEIVER

/-- One chat message, as in the `messages` state of `FakeTextBuilder`
(fields `id`, `speaker`, `text`, `delay_s?`, `read_receipt?`, `tapback`). -/
structure Message where
  id : String
  speaker : Speaker
  text : String
  delay_s : Option ℚ := none
  read_receipt : Option String := none
  tapback : Option String := none

/-- One entry of the derived reveal schedule: `{ id: m.id, at }`. -/
structure ScheduleEntry where
  id : String
  «at» : ℤ

/-- The per-message delay in milliseconds:
`Math.round(((m.delay_s ?? 3) * 1000))` from the `schedule` memo
(App.tsx line 142).  `?? 3` is nullish coalescing: the default applies
exactly when `delay_s` is absent. -/
def msgDelayMs (m : Message) : ℤ := jround ((m.delay_s.getD 3) * 1000)

/-- The accumulator loop of the `schedule` memo:
`let acc = 0; messages.map((m) => { const d = …; const at = acc; acc += d;
return { id: m.id, at }; })`. -/
def scheduleAux (acc : ℤ) : List Message → List ScheduleEntry
  | [] => []
  | m :: ms => ⟨m.id, acc⟩ :: scheduleAux (acc + msgDelayMs m) ms

/-- The `schedule` memo of `FakeTextPreview` (App.tsx lines 141-143). -/
def buildSchedule (messages : List Message) : List ScheduleEntry :=
  scheduleAux 0 messages

/-- The `visibleCount` memo (App.tsx line 145):
`let i = 0; while (i < schedule.length && timeMs >= schedule[i].«at» - 5) i++;
return i;` — a prefix count that stops at the first entry whose reveal
time (minus the 5 ms tolerance) exceeds the current time. -/
def visibleCount (schedule : List ScheduleEntry) (timeMs : ℚ) : ℕ :=
  match schedule with
  | [] => 0
  | e :: rest =>
      if (e.«at» : ℚ) - 5 ≤ timeMs then visibleCount rest timeMs + 1 else 0

-- ------------------------------------------------------------------
-- basic lemmas about jround / the scheduler
-- ------------------------------------------------------------------

theorem jround_intCast (n : ℤ) : jround (n : ℚ) = n := by
  unfold jround
  rw [Int.floor_eq_iff]
  constructor
  · linarith
  · linarith

theorem jround_eq_of (x : ℚ) (n : ℤ) (h1 : (n : ℚ) ≤ x + 1 / 2)
    (h2 : x + 1 / 2 < n + 1) : jround x = n := by
  unfold jround
  rw [Int.floor_eq_iff]
  exact ⟨h1, h2⟩

theorem scheduleAux_length (acc : ℤ) (ms : List Message) :
    (scheduleAux acc ms).length = ms.length := by
  induction ms generalizing acc with
  | nil => rfl
  | cons m ms ih => simp [scheduleAux, ih]

theorem buildSchedule_length (ms : List Message) :
    (buildSchedule ms).length = ms.length :=
  scheduleAux_length 0 ms

theorem scheduleAux_get (acc : ℤ) (ms : List Message) (i : ℕ)
    (h : i < ms.length) (h' : i < (scheduleAux acc ms).length) :
    ((scheduleAux acc ms).get ⟨i, h'⟩).id = (ms.get ⟨i, h⟩).id ∧
    ((scheduleAux acc ms).get ⟨i, h'⟩).«at» =
      acc + ((ms.take i).map msgDelayMs).sum := by
  induction ms generalizing acc i with
  | nil => exact absurd h (by simp)
  | cons m ms ih =>
      cases i with
      | zero => simp [scheduleAux]
      | succ j =>
          have hj : j < ms.length := by simpa using h
          have hj' : j < (scheduleAux (acc + msgDelayMs m) ms).length := by
            rw [scheduleAux_length]; exact hj
          have := ih (acc + msgDelayMs m) j hj hj'
          simp only [scheduleAux, List.get_cons_succ, List.take_succ_cons,
            List.map_cons, List.sum_cons] at *
          exact ⟨this.1, by rw [this.2]; ring⟩

theorem buildSchedule_get (ms : List Message) (i : ℕ)
    (h : i < ms.length) (h' : i < (buildSchedule ms).length) :
    ((buildSchedule ms).get ⟨i, h'⟩).id = (ms.get ⟨i, h⟩).id ∧
    ((buildSchedule ms).get ⟨i, h'⟩).«at» =
      ((ms.take i).map msgDelayMs).sum := by
  have := scheduleAux_get 0 ms i h h'
  simpa using this

-- ------------------------------------------------------------------
-- visibleCount lemmas
-- ------------------------------------------------------------------

theorem visibleCount_le_length (sched : List ScheduleEntry) (t : ℚ) :
    visibleCount sched t ≤ sched.length := by
  induction sched with
  | nil => simp [visibleCount]
  | cons e rest ih =>
      by_cases h : (e.«at» : ℚ) - 5 ≤ t
      · simpa [visibleCount, h] using ih
      · simp [visibleCount, h]

theorem visibleCount_mono (sched : List ScheduleEntry) {t1 t2 : ℚ}
    (h : t1 ≤ t2) : visibleCount sched t1 ≤ visibleCount sched t2 := by
  induction sched with
  | nil => simp [visibleCount]
  | cons e rest ih =>
      by_cases h1 : (e.«at» : ℚ) - 5 ≤ t1
      · have h2 : (e.«at» : ℚ) - 5 ≤ t2 := le_trans h1 h
        simpa [visibleCount, h1, h2] using ih
      · simp [visibleCount, h1]

theorem visibleCount_eq_length_iff (sched : List ScheduleEntry) (t : ℚ) :
    visibleCount sched t = sched.length ↔
      ∀ e ∈ sched, (e.«at» : ℚ) - 5 ≤ t := by
  induction sched with
  | nil => simp [visibleCount]
  | cons e rest ih =>
      by_cases h : (e.«at» : ℚ) - 5 ≤ t
      · simp [visibleCount, h, ih]
        intro _
        linarith
      · simp only [visibleCount, if_neg h, List.length_cons]
        constructor
        · intro h0
          exact absurd h0.symm (Nat.succ_ne_zero _)
        · intro hall
          exact absurd (hall e (by simp)) h

theorem visibleCount_eq_countP_of_sorted (sched : List ScheduleEntry)
    (hs : sched.Pairwise (fun a b => a.«at» ≤ b.«at»)) (t : ℚ) :
    visibleCount sched t =
      sched.countP (fun e => decide ((e.«at» : ℚ) - 5 ≤ t)) := by
  induction sched with
  | nil => simp [visibleCount]
  | cons e rest ih =>
      rw [List.pairwise_cons] at hs
      by_cases h : (e.«at» : ℚ) - 5 ≤ t
      · rw [List.countP_cons]
        simp [visibleCount, h, ih hs.2, Nat.add_comm]
      · have hnone : ∀ e2 ∈ rest, ¬((e2.«at» : ℚ) - 5 ≤ t) := by
          intro e2 he2
          have : (e.«at» : ℚ) ≤ (e2.«at» : ℚ) := by
            exact_mod_cast hs.1 e2 he2
          intro hle
          exact h (by linarith)
        rw [List.countP_cons]
        simp only [visibleCount, if_neg h, decide_eq_true_eq, h]
        rw [List.countP_eq_zero.mpr]
        · simp
        · intro e2 he2
          simpa using hnone e2 he2

-- ------------------------------------------------------------------
-- sortedness of the schedule when all delays are non-negative
-- ------------------------------------------------------------------

theorem scheduleAux_sorted (acc : ℤ) (ms : List Message)
    (h : ∀ m ∈ ms, 0 ≤ msgDelayMs m) :
    (scheduleAux acc ms).Pairwise (fun a b => a.«at» ≤ b.«at») ∧
    ∀ e ∈ scheduleAux acc ms, acc ≤ e.«at» := by
  induction ms generalizing acc with
  | nil => simp [scheduleAux]
  | cons m ms ih =>
      have hd : 0 ≤ msgDelayMs m := h m (by simp)
      have htail := ih (acc + msgDelayMs m) (fun m' hm' => h m' (by simp [hm']))
      constructor
      · rw [scheduleAux, List.pairwise_cons]
        refine ⟨fun e2 he2 => ?_, htail.1⟩
        have := htail.2 e2 he2
        simpa using le_trans (by linarith) this
      · intro e he
        rw [scheduleAux] at he
        rcases List.mem_cons.mp he with rfl | he
        · simp
        · exact le_trans (by linarith) (htail.2 e he)

theorem buildSchedule_sorted (ms : List Message)
    (h : ∀ m ∈ ms, 0 ≤ msgDelayMs m) :
    (buildSchedule ms).Pairwise (fun a b => a.«at» ≤ b.«at») :=
  (scheduleAux_sorted 0 ms h).1

theorem sorted_le_getLast (l : List ScheduleEntry)
    (hs : l.Pairwise (fun a b => a.«at» ≤ b.«at»)) (h : l ≠ []) :
    ∀ e ∈ l, e.«at» ≤ (l.getLast h).«at» := by
  induction l with
  | nil => simp
  | cons a rest ih =>
      rw [List.pairwise_cons] at hs
      intro e he
      rcases List.mem_cons.mp he with rfl | he
      · cases rest with
        | nil => simp [List.getLast]
        | cons b rs =>
            have : (b :: rs).getLast (by simp) ∈ b :: rs := List.getLast_mem _
            rw [List.getLast_cons (by simp)]
            exact hs.1 _ this
      · have hrest : rest ≠ [] := List.ne_nil_of_mem he
        rw [List.getLast_cons hrest]
        exact ih hs.2 hrest e he

-- ------------------------------------------------------------------
-- dual-mode clock (App.tsx lines 144, 148-154)
-- ------------------------------------------------------------------

/-- `const timeMs = exportMode && typeof timeOverrideMs === 'number'
? timeOverrideMs : t` (App.tsx line 144): the presentation reads the
injected override exactly when in export mode with an override present,
and the internal animation state `t` otherwise. -/
def timeMs (exportMode : Bool) (timeOverrideMs : Option ℚ) (t : ℚ) : ℚ :=
  match exportMode, timeOverrideMs with
  | true, some o => o
  | _, _ => t

/-- Whether the timeline-runner effect (App.tsx lines 148-154) schedules
its animation-frame loop: the effect returns before scheduling when the
clock is externally controlled (export mode with an override), and
otherwise runs the loop exactly when `playing` holds. -/
def timelineRunnerActive (exportMode : Bool) (timeOverrideMs : Option ℚ)
    (playing : Bool) : Bool :=
  if exportMode && timeOverrideMs.isSome then false else playing

-- ------------------------------------------------------------------
-- chat body rows (App.tsx lines 196-206)
-- ------------------------------------------------------------------

/-- One row of the chat body: the time separator or a message bubble. -/
inductive Row where
  | separator (label : String)
  | bubble (m : Message)

def Row.isBubble : Row → Bool
  | .separator _ => false
  | .bubble _ => true

/-- The rows the chat body renders (App.tsx lines 196-206): the time
separator is row 0 unconditionally, followed by
`messages.slice(0, visibleCount)` rendered as bubbles. -/
def chatRows (timeLine : String) (messages : List Message) (tm : ℚ) :
    List Row :=
  Row.separator timeLine ::
    (messages.take (visibleCount (buildSchedule messages) tm)).map Row.bubble

-- ------------------------------------------------------------------
-- export schedule builder (App.tsx line 497)
-- ------------------------------------------------------------------

/-- The per-message export delay in seconds:
`Math.max(0.01, Math.round((audioDurations[i] || 0) / 10) / 100)`. -/
def exportDelay (durationMs : ℕ) : ℚ :=
  max (1 / 100) ((jround ((durationMs : ℚ) / 10) : ℚ) / 100)

/-- `const messagesForExport = messages.map((m, i) => ({ ...m, delay_s:
Math.max(0.01, Math.round((audioDurations[i] || 0) / 10) / 100) }))`
(App.tsx line 497), expressed as a simultaneous walk over the message
list and the measured-duration list (`audioDurations[i] || 0` supplies 0
when the index is out of range). -/
def messagesForExport : List Message → List ℕ → List Message
  | [], _ => []
  | m :: ms, ds =>
      { m with delay_s := some (exportDelay (ds.headD 0)) } ::
        messagesForExport ms ds.tail

-- ------------------------------------------------------------------
-- frame capture loop (App.tsx lines 526-544)
-- ------------------------------------------------------------------

/-- `const dt = Math.round(1000 / fps)` (App.tsx line 527). -/
def frameInterval (fps : ℕ) : ℤ := jround (1000 / (fps : ℚ))

/-- `const totalFrames = Math.ceil(naturalTotalMs / dt)`
(App.tsx line 530). -/
def totalFrames (fps durationMs : ℕ) : ℤ :=
  ⌈(durationMs : ℚ) / (frameInterval fps : ℚ)⌉

/-- The export clock value set at step `i`:
`const exportTimelineMs = Math.min(naturalTotalMs, Math.round(i * dt))`
(App.tsx line 536). -/
def exportTimelineMs (fps durationMs : ℕ) (i : ℕ) : ℤ :=
  min (durationMs : ℤ) (jround ((i : ℚ) * (frameInterval fps : ℚ)))

/-- The export-clock times at which the capture loop
`for (let i = 0; i <= totalFrames; i++)` (App.tsx lines 535-544)
captures its frames; the frame with index `i` is captured at entry `i`
of this list. -/
def captureTimes (fps durationMs : ℕ) : List ℤ :=
  (List.range ((totalFrames fps durationMs).toNat + 1)).map
    (exportTimelineMs fps durationMs)

-- ------------------------------------------------------------------
-- speech synthesis and the export orchestrator
-- (App.tsx lines 410-425 and 447-583)
-- ------------------------------------------------------------------

/-- Audio produced for one message: bytes plus measured duration
(the `{ bytes, durationMs }` value returned by `synthesizeSegment`). -/
structure Seg where
  bytes : List ℕ
  durationMs : ℕ

/-- Outcome of one HTTP endpoint call: `res.ok` with a payload, or a
non-success status code. -/
inductive EndpointResult where
  | ok (seg : Seg)
  | err (status : ℕ)

def EndpointResult.isErr : EndpointResult → Bool
  | .ok _ => false
  | .err _ => true

/-- `synthesizeSegment` (App.tsx lines 410-425): try the user-voice
endpoint first; on non-success try the generic fallback endpoint; if
that is also non-success, throw a single `TTS failed` error carrying the
fallback's status. -/
def synthesizeSegment (primary fallback : EndpointResult) :
    Except ℕ Seg :=
  match primary with
  | .ok s => .ok s
  | .err _ =>
      match fallback with
      | .ok s => .ok s
      | .err status => .error status

/-- The sequential synthesis loop of `exportMp4Exact` step 1 (App.tsx
lines 485-494): one awaited `synthesizeSegment` per message, in order;
the first failure aborts the whole loop (the thrown error propagates to
the `catch`), so no message is ever synthesized twice. -/
def generateAudio (synth : Message → Except ℕ Seg) :
    List Message → Except ℕ (List Seg)
  | [] => .ok []
  | m :: ms =>
      match synth m with
      | .error e => .error e
      | .ok s =>
          match generateAudio synth ms with
          | .error e => .error e
          | .ok rest => .ok (s :: rest)

/-- The file handed to `download('fake-text.mp4', mp4Blob)` on success:
the captured frame sequence (keyed by capture time) and the concatenated
audio segments. -/
structure ExportedFile where
  name : String
  frameTimes : List ℤ
  audio : List Seg

/-- Terminal state of one export attempt: the downloaded file (`none`
when the attempt failed and nothing was produced) and the final
`exportNote`. -/
structure ExportOutcome where
  downloadedFile : Option ExportedFile
  exportNote : String

/-- `exportMp4Exact` (App.tsx lines 447-583), reduced to its data and
control flow: synthesize every message sequentially (any failure reaches
the single `catch`, which sets `exportNote` to the failure message and
downloads nothing); on success, capture frames at 30 fps along the
speech-paced timeline whose total length is the sum of the measured
durations, and download the muxed file. -/
def exportMp4Exact (responses : Message → EndpointResult × EndpointResult)
    (messages : List Message) : ExportOutcome :=
  match generateAudio
      (fun m => synthesizeSegment (responses m).1 (responses m).2)
      messages with
  | .error _ =>
      { downloadedFile := none, exportNote := "Export failed. See console." }
  | .ok segs =>
      let naturalTotalMs := (segs.map Seg.durationMs).sum
      { downloadedFile := some
          { name := "fake-text.mp4",
            frameTimes := captureTimes 30 naturalTotalMs,
            audio := segs },
        exportNote := "" }

-- ------------------------------------------------------------------
-- concrete example scripts and their evaluations
-- ------------------------------------------------------------------

/-- The three-message script of the spec's worked examples:
`delaySeconds` 2, 5, absent. -/
def specMsgs : List Message :=
  [{ id := "m1", speaker := .SENDER, text := "a", delay_s := some 2 },
   { id := "m2", speaker := .RECEIVER, text := "b", delay_s := some 5 },
   { id := "m3", speaker := .SENDER, text := "c" }]

/-- A script whose first message carries a negative `delay_s`. -/
def negMsgs : List Message :=
  [{ id := "n1", speaker := .SENDER, text := "a", delay_s := some (-1) },
   { id := "n2", speaker := .RECEIVER, text := "b" }]

/-- A script with delays 10 s, −5 s, absent: its schedule dips, so the
last entry's reveal time is not the maximum. -/
def dipMsgs : List Message :=
  [{ id := "d1", speaker := .SENDER, text := "a", delay_s := some 10 },
   { id := "d2", speaker := .RECEIVER, text := "b", delay_s := some (-5) },
   { id := "d3", speaker := .SENDER, text := "c" }]

/-- A two-message script with no explicit delays, used with measured
audio durations. -/
def exMsgs : List Message :=
  [{ id := "e1", speaker := .SENDER, text := "hi" },
   { id := "e2", speaker := .RECEIVER, text := "yo" }]

theorem buildSchedule_specMsgs :
    buildSchedule specMsgs = [⟨"m1", 0⟩, ⟨"m2", 2000⟩, ⟨"m3", 7000⟩] := by
  norm_num [specMsgs, buildSchedule, scheduleAux, msgDelayMs, jround,
    Int.floor_eq_iff]

theorem buildSchedule_negMsgs :
    buildSchedule negMsgs = [⟨"n1", 0⟩, ⟨"n2", -1000⟩] := by
  norm_num [negMsgs, buildSchedule, scheduleAux, msgDelayMs, jround,
    Int.floor_eq_iff]

theorem buildSchedule_dipMsgs :
    buildSchedule dipMsgs = [⟨"d1", 0⟩, ⟨"d2", 10000⟩, ⟨"d3", 5000⟩] := by
  norm_num [dipMsgs, buildSchedule, scheduleAux, msgDelayMs, jround,
    Int.floor_eq_iff]

theorem specMsgs_delays_nonneg : ∀ m ∈ specMsgs, 0 ≤ msgDelayMs m := by
  intro m hm
  simp only [specMsgs, List.mem_cons, List.not_mem_nil, or_false] at hm
  rcases hm with rfl | rfl | rfl <;>
    norm_num [msgDelayMs, jround, Int.floor_eq_iff]

theorem frameInterval_30 : frameInterval 30 = 33 := by
  norm_num [frameInterval, jround, Int.floor_eq_iff]

theorem totalFrames_30_100 : totalFrames 30 100 = 4 := by
  rw [totalFrames, frameInterval_30]
  rw [Int.ceil_eq_iff]
  norm_num

theorem captureTimes_30_100 : captureTimes 30 100 = [0, 33, 66, 99, 100] := by
  rw [captureTimes, totalFrames_30_100]
  show (List.range 5).map _ = _
  norm_num [List.range_succ, exportTimelineMs, frameInterval_30, jround,
    Int.floor_eq_iff]

-- ------------------------------------------------------------------
-- supporting lemmas for the claims
-- ------------------------------------------------------------------

theorem exportTimelineMs_eq (fps durationMs : ℕ) (i : ℕ) :
    exportTimelineMs fps durationMs i =
      min (durationMs : ℤ) ((i : ℤ) * frameInterval fps) := by
  unfold exportTimelineMs
  congr 1
  have h : ((i : ℚ) * (frameInterval fps : ℚ)) =
      (((i : ℤ) * frameInterval fps : ℤ) : ℚ) := by
    push_cast
    ring
  rw [h, jround_intCast]

theorem exportTimelineMs_mono (fps durationMs : ℕ)
    (hdt : 0 ≤ frameInterval fps) {i j : ℕ} (h : i ≤ j) :
    exportTimelineMs fps durationMs i ≤ exportTimelineMs fps durationMs j := by
  rw [exportTimelineMs_eq, exportTimelineMs_eq]
  exact min_le_min le_rfl
    (mul_le_mul_of_nonneg_right (by exact_mod_cast h) hdt)

theorem messagesForExport_spec (msgs : List Message) (ds : List ℕ) :
    (messagesForExport msgs ds).length = msgs.length ∧
    ∀ i (h1 : i < msgs.length) (h2 : i < (messagesForExport msgs ds).length)
      (h3 : i < ds.length),
      (messagesForExport msgs ds).get ⟨i, h2⟩ =
        { msgs.get ⟨i, h1⟩ with
          delay_s := some (exportDelay (ds.get ⟨i, h3⟩)) } := by
  induction msgs generalizing ds with
  | nil => simp [messagesForExport]
  | cons m ms ih =>
      refine ⟨by simp [messagesForExport, (ih ds.tail).1], ?_⟩
      intro i h1 h2 h3
      cases ds with
      | nil => exact absurd h3 (by simp)
      | cons d ds' =>
          cases i with
          | zero => simp [messagesForExport]
          | succ j =>
              have hj1 : j < ms.length := by simpa using h1
              have hj2 : j < (messagesForExport ms ds').length := by
                rw [(ih ds').1]
                exact hj1
              have hj3 : j < ds'.length := by simpa using h3
              have := (ih ds').2 j hj1 hj2 hj3
              simpa [messagesForExport] using this

theorem exportDelay_floor (d : ℕ) : (1 : ℚ) / 100 ≤ exportDelay d :=
  le_max_left _ _

theorem generateAudio_error_of_mem (synth : Message → Except ℕ Seg)
    (msgs : List Message) (m : Message) (hm : m ∈ msgs)
    (hfail : ∀ s, synth m ≠ .ok s) :
    ∃ e, generateAudio synth msgs = .error e := by
  induction msgs with
  | nil => exact absurd hm (by simp)
  | cons m0 rest ih =>
      rw [generateAudio]
      cases hsynth : synth m0 with
      | error e => exact ⟨e, rfl⟩
      | ok s =>
          have hm' : m ∈ rest := by
            rcases List.mem_cons.mp hm with rfl | hm'
            · exact absurd hsynth (hfail s)
            · exact hm'
          obtain ⟨e, he⟩ := ih hm'
          rw [he]
          exact ⟨e, rfl⟩

theorem synthesizeSegment_fails (s1 s2 : ℕ) :
    synthesizeSegment (.err s1) (.err s2) = .error s2 := rfl

-- ------------------------------------------------------------------
-- claims
-- ------------------------------------------------------------------

/-- C1 (counterexample): at `fps = 30`, `durationMs = 100` the frame
capture loop produces 5 frames with clock times `[0, 33, 66, 99, 100]`,
not the claimed `floor(100 / (1000/30)) + 1 = 4` frames with clock times
`[0, 33, 67, 100]`: the loop works with the pre-rounded interval
`dt = round(1000/fps) = 33` and runs up to `i = ceil(durationMs/dt)`. -/
theorem claim_C1_counterexample :
    captureTimes 30 100 = [0, 33, 66, 99, 100] ∧
    (captureTimes 30 100).length = 5 ∧
    ⌊(100 : ℚ) / (1000 / 30)⌋ + 1 = 4 ∧
    captureTimes 30 100 ≠ [0, 33, 67, 100] := by
  refine ⟨captureTimes_30_100, ?_, ?_, ?_⟩
  · rw [captureTimes_30_100]
    rfl
  · have h : ((100 : ℚ) / (1000 / 30)) = 3 := by norm_num
    rw [h]
    norm_num
  · rw [captureTimes_30_100]
    simp

/-- C1 (amended): the frame capture loop uses the rounded interval
`dt = round(1000/fps)` and steps `i = 0, 1, …, ceil(durationMs/dt)`,
setting the export clock at step `i` to `min(durationMs, i*dt)`; it
produces exactly `ceil(durationMs/dt) + 1` frames, one per index, with
non-decreasing clock times; at `fps = 30`, `durationMs = 100` it
produces exactly 5 frames (indices 0–4) with clock times
`0, 33, 66, 99, 100`. -/
theorem claim_C1 (fps durationMs : ℕ) (hdt : 0 < frameInterval fps) :
    (captureTimes fps durationMs).length =
      (totalFrames fps durationMs).toNat + 1 ∧
    (∀ i (hi : i < (captureTimes fps durationMs).length),
      (captureTimes fps durationMs).get ⟨i, hi⟩ =
        min (durationMs : ℤ) ((i : ℤ) * frameInterval fps)) ∧
    (captureTimes fps durationMs).Pairwise (· ≤ ·) ∧
    captureTimes 30 100 = [0, 33, 66, 99, 100] := by
  refine ⟨by simp [captureTimes], ?_, ?_, captureTimes_30_100⟩
  · intro i hi
    have hx : (captureTimes fps durationMs).get ⟨i, hi⟩ =
        exportTimelineMs fps durationMs i := by
      simp [captureTimes, List.get_eq_getElem]
    rw [hx]
    exact exportTimelineMs_eq fps durationMs i
  · rw [captureTimes, List.pairwise_map]
    have hr : (List.range
        ((totalFrames fps durationMs).toNat + 1)).Pairwise (· < ·) :=
      List.pairwise_lt_range _
    exact hr.imp fun hab => exportTimelineMs_mono fps durationMs hdt.le hab.le

/-- C1 witness: the amended statement instantiated at the concrete
export of the spec's example (`fps = 30`, `durationMs = 100`). -/
theorem claim_C1_witness :
    0 < frameInterval 30 ∧
    (captureTimes 30 100).length = (totalFrames 30 100).toNat + 1 := by
  have h : 0 < frameInterval 30 := by
    rw [frameInterval_30]
    norm_num
  exact ⟨h, (claim_C1 30 100 h).1⟩

/-- C2 (counterexample): on the spec's schedule (`at` values
`[0, 2000, 7000]`) the code yields `visibleCount = 3` at `t = 6999`
(because `6999 ≥ 7000 - 5`), not the claimed 2. -/
theorem claim_C2_counterexample :
    visibleCount (buildSchedule specMsgs) 6999 = 3 ∧ (3 : ℕ) ≠ 2 := by
  constructor
  · rw [buildSchedule_specMsgs]
    norm_num [visibleCount]
  · decide

/-- C2 (amended): for schedules with non-decreasing reveal times,
`visibleCount(schedule, timeMs)` is the count of entries whose `at` is
at most `timeMs` plus the 5 ms tolerance; on the schedule with `at`
values `[0, 2000, 7000]` it is 2 at `t = 2500`, 3 at `t = 6999`, and 3
at `t = 7000`. -/
theorem claim_C2 :
    (∀ (sched : List ScheduleEntry) (t : ℚ),
      sched.Pairwise (fun a b => a.«at» ≤ b.«at») →
      visibleCount sched t =
        sched.countP (fun e => decide ((e.«at» : ℚ) ≤ t + 5))) ∧
    visibleCount (buildSchedule specMsgs) 2500 = 2 ∧
    visibleCount (buildSchedule specMsgs) 6999 = 3 ∧
    visibleCount (buildSchedule specMsgs) 7000 = 3 := by
  refine ⟨?_, ?_, ?_, ?_⟩
  · intro sched t hs
    have hp : (fun e : ScheduleEntry => decide ((e.«at» : ℚ) - 5 ≤ t)) =
        (fun e : ScheduleEntry => decide ((e.«at» : ℚ) ≤ t + 5)) := by
      funext e
      rw [decide_eq_decide]
      constructor <;> intro h <;> linarith
    rw [visibleCount_eq_countP_of_sorted sched hs t, hp]
  · rw [buildSchedule_specMsgs]
    norm_num [visibleCount]
  · rw [buildSchedule_specMsgs]
    norm_num [visibleCount]
  · rw [buildSchedule_specMsgs]
    norm_num [visibleCount]

/-- C2 witness: the amended count statement instantiated on the spec's
concrete (sorted) schedule at `t = 2500`. -/
theorem claim_C2_witness :
    (buildSchedule specMsgs).Pairwise (fun a b => a.«at» ≤ b.«at») ∧
    visibleCount (buildSchedule specMsgs) 2500 =
      (buildSchedule specMsgs).countP
        (fun e => decide ((e.«at» : ℚ) ≤ 2500 + 5)) := by
  have hs : (buildSchedule specMsgs).Pairwise (fun a b => a.«at» ≤ b.«at») :=
    buildSchedule_sorted specMsgs specMsgs_delays_nonneg
  exact ⟨hs, claim_C2.1 (buildSchedule specMsgs) 2500 hs⟩

/-- C3: `buildSchedule` yields one entry per message in input order, and
entry `i`'s `at` is the sum of the rounded delays of messages
`0 … i-1` (3000 ms standing in for an absent delay); in particular a
message's own delay never occurs in its own `at`, only in later ones. -/
theorem claim_C3 (ms : List Message) :
    (buildSchedule ms).length = ms.length ∧
    ∀ i (h : i < ms.length) (h' : i < (buildSchedule ms).length),
      ((buildSchedule ms).get ⟨i, h'⟩).id = (ms.get ⟨i, h⟩).id ∧
      ((buildSchedule ms).get ⟨i, h'⟩).«at» =
        ((ms.take i).map msgDelayMs).sum :=
  ⟨buildSchedule_length ms, fun i h h' => buildSchedule_get ms i h h'⟩

/-- C3 witness: the running-total formula instantiated on the spec's
three-message script at index 1. -/
theorem claim_C3_witness :
    (buildSchedule specMsgs).length = specMsgs.length ∧
    ((buildSchedule specMsgs).get
        ⟨1, by rw [buildSchedule_length]; norm_num [specMsgs]⟩).«at» =
      ((specMsgs.take 1).map msgDelayMs).sum :=
  ⟨(claim_C3 specMsgs).1,
   ((claim_C3 specMsgs).2 1 (by norm_num [specMsgs]) _).2⟩

/-- C4 (counterexample): `buildSchedule` does not clamp delays: on a
script whose first message has `delay_s = -1` the schedule's `at` values
are `[0, -1000]`, which is not non-decreasing. -/
theorem claim_C4_counterexample :
    (buildSchedule negMsgs).map ScheduleEntry.«at» = [0, -1000] ∧
    ¬ ((buildSchedule negMsgs).map ScheduleEntry.«at»).Pairwise (· ≤ ·) := by
  constructor
  · rw [buildSchedule_negMsgs]
    rfl
  · rw [buildSchedule_negMsgs]
    norm_num [List.pairwise_cons]

/-- C4 (amended): the default is exactly 3000 ms when `delay_s` is
absent, but a present delay is passed through `round(delay * 1000)`
unclamped; the `at` values are non-decreasing exactly under the extra
assumption that every (rounded) delay is non-negative. -/
theorem claim_C4 :
    (∀ m : Message, m.delay_s = none → msgDelayMs m = 3000) ∧
    (∀ (m : Message) (d : ℚ), m.delay_s = some d →
      msgDelayMs m = jround (d * 1000)) ∧
    (∀ ms : List Message, (∀ m ∈ ms, 0 ≤ msgDelayMs m) →
      (buildSchedule ms).Pairwise (fun a b => a.«at» ≤ b.«at»)) := by
  refine ⟨?_, ?_, fun ms h => buildSchedule_sorted ms h⟩
  · intro m hm
    simp only [msgDelayMs, hm, Option.getD_none]
    norm_num [jround, Int.floor_eq_iff]
  · intro m d hm
    simp only [msgDelayMs, hm, Option.getD_some]

/-- C4 witness: the amended statement instantiated at a message with no
delay and at the spec's non-negative-delay script. -/
theorem claim_C4_witness :
    msgDelayMs { id := "w", speaker := .SENDER, text := "" } = 3000 ∧
    (buildSchedule specMsgs).Pairwise (fun a b => a.«at» ≤ b.«at») :=
  ⟨claim_C4.1 _ rfl, claim_C4.2.2 specMsgs specMsgs_delays_nonneg⟩

/-- C5: the export schedule builder keeps every message identical except
that `delay_s` becomes `max(0.01, round(durationMs/10)/100)` of that
message's own measured duration; measured durations `[1234, 2000]` give
delays `[1.23, 2]`, and no produced delay is below `0.01`. -/
theorem claim_C5 :
    (∀ (msgs : List Message) (ds : List ℕ), ds.length = msgs.length →
      (messagesForExport msgs ds).length = msgs.length ∧
      ∀ i (h1 : i < msgs.length)
        (h2 : i < (messagesForExport msgs ds).length) (h3 : i < ds.length),
        (messagesForExport msgs ds).get ⟨i, h2⟩ =
          { msgs.get ⟨i, h1⟩ with
            delay_s := some (exportDelay (ds.get ⟨i, h3⟩)) }) ∧
    (∀ d : ℕ, 1 / 100 ≤ exportDelay d) ∧
    exportDelay 1234 = 123 / 100 ∧
    exportDelay 2000 = 2 := by
  refine ⟨fun msgs ds _ => messagesForExport_spec msgs ds,
    exportDelay_floor, ?_, ?_⟩
  · have h1 : jround (((1234 : ℕ) : ℚ) / 10) = 123 := by
      norm_num [jround, Int.floor_eq_iff]
    unfold exportDelay
    rw [h1, max_eq_right (by norm_num)]
    norm_num
  · have h1 : jround (((2000 : ℕ) : ℚ) / 10) = 200 := by
      norm_num [jround, Int.floor_eq_iff]
    unfold exportDelay
    rw [h1, max_eq_right (by norm_num)]
    norm_num

/-- C5 witness: the builder instantiated on a two-message script with
measured durations `[1234, 2000]`. -/
theorem claim_C5_witness :
    ([1234, 2000] : List ℕ).length = exMsgs.length ∧
    (messagesForExport exMsgs [1234, 2000]).length = exMsgs.length :=
  ⟨by simp [exMsgs], (claim_C5.1 exMsgs [1234, 2000] (by simp [exMsgs])).1⟩

/-- C6 (counterexample): with delays `10, -5, absent` the schedule is
`[0, 10000, 5000]`; at the last entry's `at` (5000) the code shows only
1 message, not the schedule's length 3, refuting the claim for arbitrary
message lists. -/
theorem claim_C6_counterexample :
    buildSchedule dipMsgs = [⟨"d1", 0⟩, ⟨"d2", 10000⟩, ⟨"d3", 5000⟩] ∧
    (buildSchedule dipMsgs).getLast? = some ⟨"d3", 5000⟩ ∧
    visibleCount (buildSchedule dipMsgs) 5000 ≠
      (buildSchedule dipMsgs).length := by
  refine ⟨buildSchedule_dipMsgs, ?_, ?_⟩
  · rw [buildSchedule_dipMsgs]
    rfl
  · rw [buildSchedule_dipMsgs]
    norm_num [visibleCount]

/-- C6 (amended): `visibleCount` is monotonically non-decreasing in `t`
for every fixed schedule; and for every non-empty message list whose
(rounded) delays are all non-negative, `visibleCount` at the last
entry's `at` equals the schedule's length. -/
theorem claim_C6 :
    (∀ (sched : List ScheduleEntry) (t1 t2 : ℚ), t1 ≤ t2 →
      visibleCount sched t1 ≤ visibleCount sched t2) ∧
    (∀ ms : List Message, ms ≠ [] → (∀ m ∈ ms, 0 ≤ msgDelayMs m) →
      ∃ e, (buildSchedule ms).getLast? = some e ∧
        visibleCount (buildSchedule ms) (e.«at» : ℚ) = ms.length) := by
  refine ⟨fun sched t1 t2 h => visibleCount_mono sched h, ?_⟩
  intro ms hne hd
  have hbne : buildSchedule ms ≠ [] := by
    intro h
    apply hne
    have hl := buildSchedule_length ms
    rw [h] at hl
    exact List.length_eq_zero.mp hl.symm
  refine ⟨(buildSchedule ms).getLast hbne,
    List.getLast?_eq_getLast_of_ne_nil hbne, ?_⟩
  rw [← buildSchedule_length ms]
  rw [visibleCount_eq_length_iff]
  intro e2 he2
  have hle : e2.«at» ≤ ((buildSchedule ms).getLast hbne).«at» :=
    sorted_le_getLast _ (buildSchedule_sorted ms hd) hbne e2 he2
  have hc : (e2.«at» : ℚ) ≤ (((buildSchedule ms).getLast hbne).«at» : ℚ) := by
    exact_mod_cast hle
  linarith

/-- C6 witness: the amended statement instantiated on the spec's
three-message script (non-negative delays). -/
theorem claim_C6_witness :
    specMsgs ≠ [] ∧ (∀ m ∈ specMsgs, 0 ≤ msgDelayMs m) ∧
    ∃ e, (buildSchedule specMsgs).getLast? = some e ∧
      visibleCount (buildSchedule specMsgs) (e.«at» : ℚ) =
        specMsgs.length :=
  ⟨by simp [specMsgs], specMsgs_delays_nonneg,
   claim_C6.2 specMsgs (by simp [specMsgs]) specMsgs_delays_nonneg⟩

/-- C7: if both candidate endpoints return non-success for some message,
synthesis of that message fails, and the whole export attempt produces
no file and exactly the single terminal failure note. -/
theorem claim_C7 (responses : Message → EndpointResult × EndpointResult)
    (msgs : List Message) (m : Message) (hm : m ∈ msgs)
    (h1 : (responses m).1.isErr = true) (h2 : (responses m).2.isErr = true) :
    (∀ s, synthesizeSegment (responses m).1 (responses m).2 ≠ .ok s) ∧
    (exportMp4Exact responses msgs).downloadedFile = none ∧
    (exportMp4Exact responses msgs).exportNote =
      "Export failed. See console." := by
  obtain ⟨s1, hs1⟩ : ∃ s, (responses m).1 = .err s := by
    cases hrm : (responses m).1 with
    | ok s =>
        rw [hrm] at h1
        simp [EndpointResult.isErr] at h1
    | err s => exact ⟨s, rfl⟩
  obtain ⟨s2, hs2⟩ : ∃ s, (responses m).2 = .err s := by
    cases hrm : (responses m).2 with
    | ok s =>
        rw [hrm] at h2
        simp [EndpointResult.isErr] at h2
    | err s => exact ⟨s, rfl⟩
  have hfail : ∀ s, synthesizeSegment (responses m).1 (responses m).2 ≠
      .ok s := by
    intro s
    rw [hs1, hs2, synthesizeSegment_fails]
    simp
  obtain ⟨e, he⟩ := generateAudio_error_of_mem
    (fun m' => synthesizeSegment (responses m').1 (responses m').2)
    msgs m hm hfail
  refine ⟨hfail, ?_, ?_⟩
  · unfold exportMp4Exact
    rw [he]
  · unfold exportMp4Exact
    rw [he]

/-- C7 witness: an export over the spec's script where both endpoints
answer non-success (404 then 500) for every message downloads nothing. -/
theorem claim_C7_witness :
    ({ id := "m1", speaker := .SENDER, text := "a", delay_s := some 2 } :
        Message) ∈ specMsgs ∧
    (exportMp4Exact (fun _ => (.err 404, .err 500))
        specMsgs).downloadedFile = none :=
  ⟨by simp [specMsgs],
   (claim_C7 (fun _ => (.err 404, .err 500)) specMsgs
      { id := "m1", speaker := .SENDER, text := "a", delay_s := some 2 }
      (by simp [specMsgs]) rfl rfl).2.1⟩

/-- C8: with the clock export-driven (export mode and an override
present), the presentation's time equals the injected override exactly,
and the interactive animation loop is never scheduled. -/
theorem claim_C8 (o t : ℚ) (playing : Bool) :
    timeMs true (some o) t = o ∧
    timelineRunnerActive true (some o) playing = false :=
  ⟨rfl, rfl⟩

/-- C9: for an empty message list the chat body renders the time
separator and zero bubbles, at every timeline time, as a normal total
case. -/
theorem claim_C9 (timeLine : String) (t : ℚ) :
    chatRows timeLine [] t = [Row.separator timeLine] ∧
    (chatRows timeLine [] t).countP Row.isBubble = 0 :=
  ⟨rfl, rfl⟩

/-- C10: for every non-empty message list the first schedule entry's
`at` is 0 regardless of the first message's own delay, so with the 5 ms
tolerance at least one message is visible at every time `t ≥ 0`. -/
theorem claim_C10 (ms : List Message) (t : ℚ) (hne : ms ≠ [])
    (ht : 0 ≤ t) :
    (∃ e, (buildSchedule ms).head? = some e ∧ e.«at» = 0) ∧
    1 ≤ visibleCount (buildSchedule ms) t := by
  cases ms with
  | nil => exact absurd rfl hne
  | cons m rest =>
      have h0 : (((0 : ℤ) : ℚ)) - 5 ≤ t := by
        push_cast
        linarith
      constructor
      · exact ⟨⟨m.id, 0⟩, rfl, rfl⟩
      · show 1 ≤ visibleCount
          (⟨m.id, 0⟩ :: scheduleAux (0 + msgDelayMs m) rest) t
        rw [visibleCount]
        rw [if_pos h0]
        omega

/-- C10 witness: the statement instantiated on the spec's script at
time 0. -/
theorem claim_C10_witness :
    specMsgs ≠ [] ∧ (0 : ℚ) ≤ 0 ∧
    1 ≤ visibleCount (buildSchedule specMsgs) 0 :=
  ⟨by simp [specMsgs], le_refl 0,
   (claim_C10 specMsgs 0 (by simp [specMsgs]) (le_refl 0)).2⟩

end FakeText
